import Mathlib

/-!
Verification of the HTML-to-spreadsheet conversion core and the auxiliary
browser scripts of this repository.

The registration-form script (`checkPasswordRequirements`) and the site
script's `settings.load` are embedded directly from the JavaScript source.
The conversion core (parser, table/content extractors, style engine,
workbook builder, batch orchestrator) is not present under `src/`; it is
modelled from the specification, as marked on each definition.
-/

/-! ## Password requirement check (src/unnamed/part_000, lines 19-36) -/

/-- The set of special characters accepted by the password check:
the JavaScript regex character class in part_000 line 25. -/
def specialChars : List Char :=
  ['!', '@', '#', '$', '%', '^', '&', '*', '(', ')', ',', '.', '?', '"',
   ':', '\x7b', '\x7d', '|', '<', '>']

/-- `checkPasswordRequirements` from part_000 lines 19-36: length at least 8,
at least one ASCII uppercase letter, one ASCII lowercase letter, one decimal
digit, and one special character; the function returns the conjunction of the
five requirement flags. -/
def checkPasswordRequirements (password : String) : Bool :=
  decide (8 ≤ password.length) &&
  password.data.any (fun c => 'A' ≤ c && c ≤ 'Z') &&
  password.data.any (fun c => 'a' ≤ c && c ≤ 'z') &&
  password.data.any (fun c => '0' ≤ c && c ≤ '9') &&
  password.data.any (fun c => specialChars.contains c)

/-! ## Settings persistence (src/project/scripts/main.js, lines 302-310) -/

/-- Abstract JSON values, the results of the external `JSON.parse`. -/
inductive JsonValue where
  | null
  | bool (b : Bool)
  | num (n : Int)
  | str (s : String)
  | arr (elems : List JsonValue)
  | obj (fields : List (String × JsonValue))

/-- `settings.load` from main.js lines 302-310.  `storage` models
`localStorage.getItem` (`none` = absent key), `parse` models `JSON.parse`
(`none` = the parse threw, which the source catches).  The source returns
`defaultValue` when the stored item is falsy (absent or the empty string),
and returns `defaultValue` from the `catch` block when parsing fails. -/
def settingsLoad (parse : String → Option JsonValue)
    (storage : String → Option String) (key : String)
    (defaultValue : JsonValue) : JsonValue :=
  match storage key with
  | none => defaultValue
  | some item =>
    if item = "" then defaultValue
    else
      match parse item with
      | some v => v
      | none => defaultValue

/-! ## Table extraction: occupancy-grid span resolution (spec 4.2) -/

/-- A table cell as it appears in the markup, before span resolution:
text, raw `rowspan`/`colspan` values (possibly zero or negative when the
markup is malformed) and whether it is a header-type cell. -/
structure RawCell where
  text : String
  rowspan : Int
  colspan : Int
  isHeader : Bool
deriving DecidableEq

/-- Modelled from the spec: a resolved cell of a `TableModel` (spec section 3):
spans clamped to at least 1, placed at its resolved grid origin. -/
structure CellModel where
  text : String
  row_span : Nat
  col_span : Nat
  is_header : Bool
  origin_row : Nat
  origin_col : Nat
deriving DecidableEq

/-- Modelled from the spec: `TableModel` (spec section 3); `rows` is the
resolved grid, one `CellModel` list per source row. -/
structure TableModel where
  index : Nat
  rows : List (List CellModel)
  column_count : Nat
  has_header : Bool
deriving DecidableEq

/-- Modelled from the spec: malformed span values (zero, negative,
non-numeric map to the default before this point) clamp to at least 1
(spec 4.2 failure policy). -/
def clamp1 (n : Int) : Nat :=
  if n < 1 then 1 else n.toNat

/-- The `row_span × col_span` footprint of a cell placed at `(r, c)`:
the list of occupied grid coordinates. -/
def cellFootprint (r c rs cs : Nat) : List (Nat × Nat) :=
  (List.range rs).flatMap (fun i => (List.range cs).map (fun j => (r + i, c + j)))

/-- Modelled from the spec: advance the column cursor past already-occupied
cells (from earlier rows' vertical spans) to find the next free column
(spec 4.2).  `fuel` bounds the scan; the callers pass one more than the
number of occupied coordinates, which always suffices. -/
def findFree (occ : List (Nat × Nat)) (r : Nat) : Nat → Nat → Nat
  | c, 0 => c
  | c, fuel+1 => if (r, c) ∈ occ then findFree occ r (c+1) fuel else c

/-- Modelled from the spec: place one row's cells in document order
(spec 4.2): for each cell find the next free column from the cursor, place
the cell there with clamped spans, and continue after its column extent.
Returns the resolved `CellModel` list of the row. -/
def placeRowCells (r : Nat) : List RawCell → List (Nat × Nat) → Nat → List CellModel
  | [], _, _ => []
  | cell :: rest, occ, cursor =>
    let cs := clamp1 cell.colspan
    let rs := clamp1 cell.rowspan
    let col := findFree occ r cursor (occ.length + 1)
    ⟨cell.text, rs, cs, cell.isHeader, r, col⟩ ::
      placeRowCells r rest (occ ++ cellFootprint r col rs cs) (col + cs)

/-- Modelled from the spec: the occupancy grid after placing one row's cells,
with each placed cell's `row_span × col_span` footprint marked occupied
(spec 4.2).  Mirrors `placeRowCells` on the grid component. -/
def placeRowOcc (r : Nat) : List RawCell → List (Nat × Nat) → Nat → List (Nat × Nat)
  | [], occ, _ => occ
  | cell :: rest, occ, cursor =>
    let cs := clamp1 cell.colspan
    let rs := clamp1 cell.rowspan
    let col := findFree occ r cursor (occ.length + 1)
    placeRowOcc r rest (occ ++ cellFootprint r col rs cs) (col + cs)

/-- Modelled from the spec: walk rows in document order, resolving each
against the growing occupancy grid (spec 4.2). -/
def resolveRows : List (List RawCell) → Nat → List (Nat × Nat) → List (List CellModel)
  | [], _, _ => []
  | row :: rest, r, occ =>
    placeRowCells r row occ 0 :: resolveRows rest (r+1) (placeRowOcc r row occ 0)

/-- The column extent of a resolved row: the width needed to contain its
widest cell extent. -/
def rowExtent (row : List CellModel) : Nat :=
  row.foldr (fun c a => max (c.origin_col + c.col_span) a) 0

/-- Modelled from the spec: `column_count` is the grid width needed to
contain every row's widest extent (spec 4.2). -/
def columnCount (rows : List (List CellModel)) : Nat :=
  rows.foldr (fun row a => max (rowExtent row) a) 0

/-- Modelled from the spec: header detection (spec 4.2) — the table has a
header when its first row is nonempty and all of its cells are header-type
cells. -/
def tableHasHeader (rows : List (List CellModel)) : Bool :=
  match rows with
  | [] => false
  | r0 :: _ => !r0.isEmpty && r0.all (·.is_header)

/-- Modelled from the spec: resolve a raw table (rows of raw cells, document
order) into a `TableModel` via occupancy-grid resolution (spec 4.2). -/
def resolveTable (idx : Nat) (rows : List (List RawCell)) : TableModel :=
  let rs := resolveRows rows 0 []
  ⟨idx, rs, columnCount rs, tableHasHeader rs⟩

/-- The columns of grid row `r` covered by cell footprints, with
multiplicity: each cell whose vertical span covers `r` contributes its
column interval. -/
def rowCovList (rows : List (List CellModel)) (r : Nat) : List Nat :=
  rows.flatMap (fun row => row.flatMap (fun c =>
    if c.origin_row ≤ r ∧ r < c.origin_row + c.row_span then
      (List.range c.col_span).map (fun j => c.origin_col + j)
    else []))

/-- A well-formed resolved table: every grid row is covered by cell
footprints exactly once (no overlaps: the coverage list has no duplicates;
no gaps: it covers exactly `[0, column_count)`). -/
def wellFormedTable (t : TableModel) : Prop :=
  ∀ r, r < t.rows.length →
    (rowCovList t.rows r).Nodup ∧
    (rowCovList t.rows r).toFinset = Finset.range t.column_count

instance (t : TableModel) : Decidable (wellFormedTable t) :=
  inferInstanceAs (Decidable (∀ r, r < t.rows.length → _ ∧ _))

/-- The sum of cell widths of one resolved row (each cell counted at its
origin row). -/
def rowWidthSum (row : List CellModel) : Nat :=
  (row.map (·.col_span)).sum

/-- The maximum over rows of the sum of cell widths in that row. -/
def maxRowWidthSum (rows : List (List CellModel)) : Nat :=
  rows.foldr (fun row a => max (rowWidthSum row) a) 0

/-! ## Merge ranges (spec 4.5: table sheets declare merges for spans > 1) -/

/-- A declared rectangular merge region of a sheet (inclusive bounds). -/
structure MergeRange where
  firstRow : Nat
  lastRow : Nat
  firstCol : Nat
  lastCol : Nat
deriving DecidableEq

/-- Modelled from the spec: the merge ranges declared for one resolved row —
one range per cell whose span exceeds 1, covering its footprint
(spec 4.5). -/
def mergesOfRow (row : List CellModel) : List MergeRange :=
  row.filterMap (fun c =>
    if 1 < c.row_span ∨ 1 < c.col_span then
      some ⟨c.origin_row, c.origin_row + c.row_span - 1,
            c.origin_col, c.origin_col + c.col_span - 1⟩
    else none)

/-- Modelled from the spec: all merge ranges declared on a table sheet
(spec 4.5). -/
def mergesOfTable (t : TableModel) : List MergeRange :=
  t.rows.flatMap mergesOfRow

/-- Reading a merge range back as a span footprint:
`(origin_row, origin_col, row_span, col_span)`. -/
def footprintOfMerge (m : MergeRange) : Nat × Nat × Nat × Nat :=
  (m.firstRow, m.firstCol, m.lastRow + 1 - m.firstRow, m.lastCol + 1 - m.firstCol)

/-- The span footprints of one resolved row's cells whose span exceeds 1. -/
def spanFootprintsOfRow (row : List CellModel) : List (Nat × Nat × Nat × Nat) :=
  row.filterMap (fun c =>
    if 1 < c.row_span ∨ 1 < c.col_span then
      some (c.origin_row, c.origin_col, c.row_span, c.col_span)
    else none)

/-- The span footprints of all cells of a table whose span exceeds 1. -/
def spanFootprints (t : TableModel) : List (Nat × Nat × Nat × Nat) :=
  t.rows.flatMap spanFootprintsOfRow

/-- The coverage contribution of one resolved row to grid row `r`. -/
def rowCovOfRow (row : List CellModel) (r : Nat) : List Nat :=
  row.flatMap (fun c =>
    if c.origin_row ≤ r ∧ r < c.origin_row + c.row_span then
      (List.range c.col_span).map (fun j => c.origin_col + j)
    else [])

/-! ## Sheet naming (spec 4.5 and section 6) -/

/-- One decimal digit rendered as a character. -/
def digitChar (d : Nat) : Char := Char.ofNat (48 + d)

/-- Big-endian decimal digits of `n`; any `fuel ≥ n` produces them all. -/
def decDigitsAux : Nat → Nat → List Char
  | 0, _ => []
  | _+1, 0 => []
  | fuel+1, n+1 => decDigitsAux fuel ((n+1) / 10) ++ [digitChar ((n+1) % 10)]

/-- Decimal rendering of a natural number. -/
def decimalRepr (n : Nat) : String :=
  if n = 0 then "0" else String.mk (decDigitsAux n n)

/-- Evaluation of a decimal digit string back to a number. -/
def evalDigits (l : List Char) : Nat :=
  l.foldl (fun a c => a * 10 + (c.toNat - 48)) 0

/-- The characters disallowed in sheet names by the target format
(spec section 6). -/
def invalidSheetChars : List Char := ['[', ']', ':', '*', '?', '/', '\\']

/-- Modelled from the spec: sanitizing a sheet label drops the characters
the target format disallows (spec 4.5 and section 6). -/
def sanitizeChars (s : String) : List Char :=
  s.data.filter (fun c => !invalidSheetChars.contains c)

/-- Modelled from the spec: a collision-free sheet name is the sanitized
label truncated to 31 characters (spec 4.5 and section 6). -/
def plainSheetName (base : String) : String :=
  String.mk ((sanitizeChars base).take 31)

/-- Modelled from the spec: on a collision the suffix `_2`, `_3`, … is
appended (spec 4.5); the stem is truncated to 25 characters so the
31-character bound of section 6 holds alongside the suffix. -/
def suffixedSheetName (base : String) (k : Nat) : String :=
  String.mk ((sanitizeChars base).take 25 ++ '_' :: (decimalRepr k).data)

/-- Modelled from the spec: try the suffixes in order and return the first
suffixed name not already used (spec 4.5); `fuel` bounds the search and the
caller passes enough for the search to always succeed. -/
def findSuffix (used : List String) (base : String) : Nat → Nat → String
  | k, 0 => suffixedSheetName base k
  | k, fuel+1 =>
    if suffixedSheetName base k ∈ used then findSuffix used base (k+1) fuel
    else suffixedSheetName base k

/-- Modelled from the spec: resolve one sheet name against the names already
used (spec 4.5): the sanitized label itself when free, otherwise the first
free suffixed variant `_2`, `_3`, …. -/
def resolveSheetName (used : List String) (base : String) : String :=
  if plainSheetName base ∈ used then findSuffix used base 2 (used.length + 1)
  else plainSheetName base

/-- Modelled from the spec: assign sheet names to the base labels in order of
first occurrence, each resolved against all previously assigned names
(spec 4.5). -/
def assignSheetNames (used : List String) : List String → List String
  | [] => []
  | b :: rest =>
    resolveSheetName used b :: assignSheetNames (resolveSheetName used b :: used) rest

/-! ## Whitespace collapsing and entities (spec 4.1) -/

/-- Markup whitespace characters. -/
def isWsChar (c : Char) : Bool :=
  c = ' ' || c = '\n' || c = '\t' || c = '\r'

/-- Split a character list into maximal non-whitespace words. -/
def wordsAux : List Char → List Char → List (List Char)
  | [], acc => if acc.isEmpty then [] else [acc.reverse]
  | c :: rest, acc =>
    if isWsChar c then
      if acc.isEmpty then wordsAux rest [] else acc.reverse :: wordsAux rest []
    else wordsAux rest (c :: acc)

/-- Join words with single spaces. -/
def joinWords : List (List Char) → List Char
  | [] => []
  | [w] => w
  | w :: ws => w ++ ' ' :: joinWords ws

/-- Modelled from the spec: whitespace inside inline text is collapsed to
single spaces, with surrounding whitespace trimmed (spec 4.1). -/
def collapseText (s : String) : String :=
  String.mk (joinWords (wordsAux s.data []))

/-- Modelled from the spec: character-reference entities are decoded to their
textual form (spec 4.1); the five named entities of markup. -/
def decodeEntities : List Char → List Char
  | [] => []
  | '&' :: 'a' :: 'm' :: 'p' :: ';' :: rest => '&' :: decodeEntities rest
  | '&' :: 'l' :: 't' :: ';' :: rest => '<' :: decodeEntities rest
  | '&' :: 'g' :: 't' :: ';' :: rest => '>' :: decodeEntities rest
  | '&' :: 'q' :: 'u' :: 'o' :: 't' :: ';' :: rest => '"' :: decodeEntities rest
  | '&' :: 'a' :: 'p' :: 'o' :: 's' :: ';' :: rest => '\'' :: decodeEntities rest
  | c :: rest => c :: decodeEntities rest

/-! ## Text decoding (spec 4.1 and section 7: DecodeError) -/

/-- A UTF-8 continuation byte. -/
def isContByte (b : Nat) : Bool := 128 ≤ b && b < 192

/-- Validity of the first continuation byte of a three-byte sequence. -/
def contValid3 (b c1 : Nat) : Bool :=
  if b = 224 then 160 ≤ c1 && c1 ≤ 191
  else if b = 237 then 128 ≤ c1 && c1 ≤ 159
  else isContByte c1

/-- Validity of the first continuation byte of a four-byte sequence. -/
def contValid4 (b c1 : Nat) : Bool :=
  if b = 240 then 144 ≤ c1 && c1 ≤ 191
  else if b = 244 then 128 ≤ c1 && c1 ≤ 143
  else isContByte c1

/-- Modelled from the spec: decoding the input bytes as text; `none` when no
byte sequence yields valid characters, which is the fatal `DecodeError`
case (spec 4.1, section 7).  Standard UTF-8 validation. -/
def utf8Decode : List Nat → Option (List Char)
  | [] => some []
  | b :: rest =>
    if b < 128 then
      (utf8Decode rest).map (fun cs => Char.ofNat b :: cs)
    else if 194 ≤ b && b ≤ 223 then
      match rest with
      | c1 :: rest2 =>
        if isContByte c1 then
          (utf8Decode rest2).map (fun cs =>
            Char.ofNat ((b - 192) * 64 + (c1 - 128)) :: cs)
        else none
      | [] => none
    else if 224 ≤ b && b ≤ 239 then
      match rest with
      | c1 :: c2 :: rest3 =>
        if contValid3 b c1 && isContByte c2 then
          (utf8Decode rest3).map (fun cs =>
            Char.ofNat ((b - 224) * 4096 + (c1 - 128) * 64 + (c2 - 128)) :: cs)
        else none
      | _ => none
    else if 240 ≤ b && b ≤ 244 then
      match rest with
      | c1 :: c2 :: c3 :: rest4 =>
        if contValid4 b c1 && isContByte c2 && isContByte c3 then
          (utf8Decode rest4).map (fun cs =>
            Char.ofNat ((b - 240) * 262144 + (c1 - 128) * 4096 +
              (c2 - 128) * 64 + (c3 - 128)) :: cs)
        else none
      | _ => none
    else none

/-! ## Document tree parsing (spec 4.1) -/

/-- Modelled from the spec: the parsed node tree — a closed tagged variant
of elements (tag, attributes, ordered children) and text (spec section 3). -/
inductive Node where
  | element (tag : String) (attrs : List (String × String)) (children : List Node)
  | text (content : String)

/-- A character allowed in tag and attribute names. -/
def isNameChar (c : Char) : Bool := c.isAlphanum || c = '-' || c = '_'

/-- Parse the attribute list from the text after a tag name. -/
def parseAttrsAux : Nat → List Char → List (String × String)
  | 0, _ => []
  | _+1, [] => []
  | fuel+1, c :: rest =>
    if isWsChar c then parseAttrsAux fuel rest
    else if isNameChar c then
      let nm := (c :: rest).takeWhile isNameChar
      let after := (c :: rest).dropWhile isNameChar
      match after with
      | '=' :: '"' :: more =>
        let v := more.takeWhile (fun d => d ≠ '"')
        let more2 := (more.dropWhile (fun d => d ≠ '"')).drop 1
        (String.mk (nm.map Char.toLower), String.mk v) :: parseAttrsAux fuel more2
      | '=' :: '\'' :: more =>
        let v := more.takeWhile (fun d => d ≠ '\'')
        let more2 := (more.dropWhile (fun d => d ≠ '\'')).drop 1
        (String.mk (nm.map Char.toLower), String.mk v) :: parseAttrsAux fuel more2
      | '=' :: more =>
        let v := more.takeWhile (fun d => !isWsChar d)
        let more2 := more.dropWhile (fun d => !isWsChar d)
        (String.mk (nm.map Char.toLower), String.mk v) :: parseAttrsAux fuel more2
      | _ =>
        (String.mk (nm.map Char.toLower), "") :: parseAttrsAux fuel after
    else parseAttrsAux fuel rest

/-- Markup tokens. -/
inductive Tok where
  | openTok (tag : String) (attrs : List (String × String)) (selfClose : Bool)
  | closeTok (tag : String)
  | textTok (content : String)
  | dropTok

/-- Classify the text between `<` and `>` as a token; comments and
processing instructions are dropped (spec 4.1). -/
def mkTagTok (inside : List Char) : Tok :=
  match inside with
  | [] => Tok.dropTok
  | '!' :: _ => Tok.dropTok
  | '?' :: _ => Tok.dropTok
  | '/' :: rest =>
    Tok.closeTok (String.mk ((rest.takeWhile isNameChar).map Char.toLower))
  | _ =>
    Tok.openTok (String.mk ((inside.takeWhile isNameChar).map Char.toLower))
      (parseAttrsAux inside.length (inside.dropWhile isNameChar))
      (inside.getLast? == some '/')

/-- Tokenize markup text; each step consumes at least one character, so
`fuel = length` suffices. -/
def tokenizeAux : Nat → List Char → List Tok
  | 0, _ => []
  | _+1, [] => []
  | fuel+1, '<' :: rest =>
    let inside := rest.takeWhile (fun c => c ≠ '>')
    let rest2 := (rest.dropWhile (fun c => c ≠ '>')).drop 1
    mkTagTok inside :: tokenizeAux fuel rest2
  | fuel+1, cs =>
    let txt := cs.takeWhile (fun c => c ≠ '<')
    let rest2 := cs.dropWhile (fun c => c ≠ '<')
    Tok.textTok (String.mk (decodeEntities txt)) :: tokenizeAux fuel rest2

/-- Elements that never hold children. -/
def voidTags : List String :=
  ["br", "hr", "img", "input", "meta", "link", "area", "base", "col",
   "embed", "source", "track", "wbr"]

/-- Auto-close open elements until the frame with the given tag, recording a
warning for each intermediate unclosed element (spec 4.1). -/
def popUntil (tag : String) :
    List (String × List (String × String) × List Node) → List Node →
    List (String × List (String × String) × List Node) × List Node × List String
  | [], acc => ([], acc, [])
  | (t, tattrs, parentAcc) :: stack, acc =>
    if t = tag then (stack, Node.element t tattrs acc.reverse :: parentAcc, [])
    else
      match popUntil tag stack (Node.element t tattrs acc.reverse :: parentAcc) with
      | (s2, a2, w2) => (s2, a2, String.append ("auto-closed ") t :: w2)

/-- Auto-close every element still open at the end of input, recording a
warning per unclosed element, and wrap everything in the synthetic root
(spec 4.1). -/
def closeAll :
    List (String × List (String × String) × List Node) → List Node → List String →
    Node × List String
  | [], acc, warns => (Node.element ("#root") [] acc.reverse, warns)
  | (t, tattrs, parentAcc) :: stack, acc, warns =>
    closeAll stack (Node.element t tattrs acc.reverse :: parentAcc)
      (warns ++ [String.append ("unclosed tag ") t])

/-- Modelled from the spec: lenient tree construction (spec 4.1): unclosed
tags auto-close at the nearest valid ancestor boundary, stray close tags are
ignored, whitespace-only text between elements is discarded; repairs are
warnings, never failures. -/
def buildAux :
    List Tok → List (String × List (String × String) × List Node) →
    List Node → List String → Node × List String
  | [], stack, acc, warns => closeAll stack acc warns
  | tok :: rest, stack, acc, warns =>
    match tok with
    | Tok.dropTok => buildAux rest stack acc warns
    | Tok.textTok s =>
      if s.data.all isWsChar then buildAux rest stack acc warns
      else buildAux rest stack (Node.text s :: acc) warns
    | Tok.openTok t tattrs sc =>
      if sc || t ∈ voidTags then
        buildAux rest stack (Node.element t tattrs [] :: acc) warns
      else buildAux rest ((t, tattrs, acc) :: stack) [] warns
    | Tok.closeTok t =>
      if stack.any (fun f => f.1 == t) then
        match popUntil t stack acc with
        | (s2, a2, w2) => buildAux rest s2 a2 (warns ++ w2)
      else buildAux rest stack acc (warns ++ [String.append ("stray close tag ") t])

/-- Modelled from the spec: DocumentTreeParser.parse on decoded text
(spec 4.1): a synthetic root element wrapping the whole document, plus the
structural warnings collected while repairing the markup. -/
def parseHtmlChars (cs : List Char) : Node × List String :=
  buildAux (tokenizeAux cs.length cs) [] [] []

/-- Modelled from the spec: the error taxonomy relevant to a single file
(spec section 7). -/
inductive ConvError where
  | decodeError
  | ioError
deriving DecidableEq

/-- Modelled from the spec: parsing raw input bytes (spec 4.1): fails with
`DecodeError` exactly when the bytes are not decodable as text; decodable
input always yields a best-effort tree. -/
def parseDocument (bytes : List Nat) : Except ConvError (Node × List String) :=
  match utf8Decode bytes with
  | none => Except.error ConvError.decodeError
  | some cs => Except.ok (parseHtmlChars cs)

/-! ## Content extraction (spec 4.3) -/

/-- Modelled from the spec: `ContentRecord` (spec section 3); document order
is the list order. -/
inductive ContentRecord where
  | heading (level : Nat) (text : String)
  | paragraph (text : String)
  | listItem (depth : Nat) (ordered : Bool) (index : Nat) (text : String)
  | tableReference (table_index : Nat)
deriving DecidableEq

/-- The list container tags. -/
def listTags : List String := ["ul", "ol"]

/-- The inline text of a node: concatenated descendant text, stopping at
list and table containers (their content is extracted separately);
`fuel` bounds the descent depth (spec design note on bounded traversal). -/
def inlineTextF : Nat → Node → List Char
  | 0, _ => []
  | _+1, Node.text s => s.data
  | fuel+1, Node.element tag _ children =>
    if tag ∈ listTags || tag = "table" then []
    else (children.map (inlineTextF fuel)).flatten

/-- The collapsed text of a node list. -/
def textOfNodes (fuel : Nat) (children : List Node) : String :=
  collapseText (String.mk ((children.map (inlineTextF fuel)).flatten))

/-- The number of table elements in a subtree, for table-reference
numbering. -/
def countTables : Nat → Node → Nat
  | 0, _ => 0
  | _+1, Node.text _ => 0
  | fuel+1, Node.element tag _ children =>
    (if tag = "table" then 1 else 0) + (children.map (countTables fuel)).sum

/-- Heading rank of a heading tag. -/
def headingLevelOf (tag : String) : Option Nat :=
  if tag = "h1" then some 1
  else if tag = "h2" then some 2
  else if tag = "h3" then some 3
  else if tag = "h4" then some 4
  else if tag = "h5" then some 5
  else if tag = "h6" then some 6
  else none

/-- Modelled from the spec: extract the items of one list element
(spec 4.3): each direct `li` child yields a `ListItem` at the current depth
with the enclosing list's `ordered` flag and its 1-based position; lists
nested inside an item are extracted right after it at depth + 1. -/
def exList : Nat → Nat → Bool → Nat → List Node → List ContentRecord
  | 0, _, _, _, _ => []
  | _+1, _, _, _, [] => []
  | fuel+1, depth, ordered, idx, c :: rest =>
    match c with
    | Node.element tag _ lich =>
      if tag = "li" then
        ContentRecord.listItem depth ordered idx (textOfNodes fuel lich) ::
          ((lich.map (fun g =>
              match g with
              | Node.element t2 _ gch =>
                if t2 = "ol" then exList fuel (depth+1) true 1 gch
                else if t2 = "ul" then exList fuel (depth+1) false 1 gch
                else []
              | _ => [])).flatten ++
            exList fuel depth ordered (idx+1) rest)
      else exList fuel depth ordered idx rest
    | _ => exList fuel depth ordered idx rest

/-- Modelled from the spec: ContentExtractor.extract (spec 4.3): depth-first
document order; table nodes yield only a `TableReference`; heading rank from
the tag; sectioning and unknown wrappers are transparent (children visited in
place); bare non-whitespace text becomes a paragraph. -/
def exNodes : Nat → Nat → List Node → List ContentRecord
  | 0, _, _ => []
  | _+1, _, [] => []
  | fuel+1, tc, c :: rest =>
    match c with
    | Node.text s =>
      (if collapseText s = "" then [] else [ContentRecord.paragraph (collapseText s)]) ++
        exNodes fuel tc rest
    | Node.element tag _ ch =>
      if tag = "table" then
        ContentRecord.tableReference (tc + 1) ::
          exNodes fuel (tc + countTables (fuel+1) c) rest
      else
        match headingLevelOf tag with
        | some l =>
          ContentRecord.heading l (textOfNodes fuel ch) :: exNodes fuel tc rest
        | none =>
          if tag = "p" then
            ContentRecord.paragraph (textOfNodes fuel ch) :: exNodes fuel tc rest
          else if tag = "ol" then
            exList fuel 0 true 1 ch ++ exNodes fuel tc rest
          else if tag = "ul" then
            exList fuel 0 false 1 ch ++ exNodes fuel tc rest
          else
            exNodes fuel tc (ch ++ rest)

/-! ## Table extraction from the tree (spec 4.2) -/

/-- Look up an attribute value. -/
def attrLookup (attrs : List (String × String)) (key : String) : Option String :=
  (attrs.find? (fun p => p.1 == key)).map (fun p => p.2)

/-- Parse decimal digits. -/
def digitsToNatAux : List Char → Nat → Option Nat
  | [], acc => some acc
  | c :: rest, acc =>
    if '0' ≤ c && c ≤ '9' then digitsToNatAux rest (acc * 10 + (c.toNat - 48))
    else none

/-- Parse a possibly signed integer; `none` on non-numeric text. -/
def parseIntChars : List Char → Option Int
  | [] => none
  | '-' :: rest =>
    if rest.isEmpty then none
    else (digitsToNatAux rest 0).map (fun n => -(n : Int))
  | l =>
    (digitsToNatAux l 0).map (fun n => (n : Int))

/-- The raw span attribute of a cell; non-numeric or missing values default
to 1 (spec 4.2 failure policy handles the clamping of the rest). -/
def spanValue (attrs : List (String × String)) (key : String) : Int :=
  match attrLookup attrs key with
  | none => 1
  | some v =>
    match parseIntChars v.data with
    | some i => i
    | none => 1

/-- A `td`/`th` node as a raw cell. -/
def rawCellOfNode (fuel : Nat) (n : Node) : Option RawCell :=
  match n with
  | Node.element tag attrs ch =>
    if tag = "td" || tag = "th" then
      some ⟨textOfNodes fuel ch, spanValue attrs ("rowspan"),
            spanValue attrs ("colspan"), tag = "th"⟩
    else none
  | _ => none

/-- The raw rows of a table element: direct `tr` children, plus `tr` rows
inside `thead`/`tbody`/`tfoot` wrappers. -/
def rowsOfTableChildren (fuel : Nat) (ch : List Node) : List (List RawCell) :=
  ch.flatMap (fun c =>
    match c with
    | Node.element tag _ inner =>
      if tag = "tr" then [inner.filterMap (rawCellOfNode fuel)]
      else if tag = "thead" || tag = "tbody" || tag = "tfoot" then
        inner.flatMap (fun c2 =>
          match c2 with
          | Node.element t2 _ inner2 =>
            if t2 = "tr" then [inner2.filterMap (rawCellOfNode fuel)] else []
          | _ => [])
      else []
    | _ => [])

/-- Modelled from the spec: collect every table's raw rows in document
order, nested tables included (spec 4.2). -/
def findTables : Nat → Node → List (List (List RawCell))
  | 0, _ => []
  | _+1, Node.text _ => []
  | fuel+1, Node.element tag _ ch =>
    (if tag = "table" then [rowsOfTableChildren fuel ch] else []) ++
      (ch.map (findTables fuel)).flatten

/-- Modelled from the spec: TableExtractor.extract (spec 4.2): resolve each
found table, assigning indices 1..N in document order. -/
def extractTables (fuel : Nat) (root : Node) : List TableModel :=
  ((List.range (findTables fuel root).length).zip (findTables fuel root)).map
    (fun p => resolveTable (p.1 + 1) p.2)

/-! ## Style engine (spec 4.4) -/

/-- Modelled from the spec: the closed set of style roles (spec 4.4). -/
inductive StyleRole where
  | headerRow
  | bodyCell
  | heading (level : Nat)
  | paragraphText
  | listItemText
deriving DecidableEq

/-- Modelled from the spec: `StyleDescriptor` (spec section 3). -/
structure StyleDescriptor where
  bold : Bool
  font_size : Nat
  fill_color : Option Nat
  column_width_hint : Option Nat
deriving DecidableEq

/-- Modelled from the spec: fixed design constants (spec 4.4): header cells
bold on a filled background; heading font size strictly decreasing from
level 1 through level 6; body and paragraph text in the default font. -/
def styleFor : StyleRole → StyleDescriptor
  | StyleRole.headerRow => ⟨true, 11, some 4485828, none⟩
  | StyleRole.bodyCell => ⟨false, 11, none, none⟩
  | StyleRole.heading l => ⟨true, 17 - l, none, none⟩
  | StyleRole.paragraphText => ⟨false, 11, none, none⟩
  | StyleRole.listItemText => ⟨false, 11, none, none⟩

/-- Modelled from the spec: the column width hint
`min(cap, max(4, longest cell text) + padding)` (spec 4.4). -/
def columnWidthHint (texts : List String) : Nat :=
  min 50 (max 4 (texts.foldr (fun s a => max s.length a) 0) + 2)

/-! ## Workbook building (spec 4.5) -/

/-- One placed, styled sheet cell at its column. -/
structure SheetCell where
  col : Nat
  value : String
  style : StyleDescriptor
deriving DecidableEq

/-- Modelled from the spec: `SheetModel` (spec section 3). -/
structure SheetModel where
  name : String
  rows : List (List SheetCell)
  merges : List MergeRange
deriving DecidableEq

/-- Modelled from the spec: `WorkbookModel` (spec section 3). -/
structure WorkbookModel where
  sheets : List SheetModel
deriving DecidableEq

/-- Modelled from the spec: a table sheet's rows come from the resolved grid
with header/body styles per 4.4 (spec 4.5). -/
def tableSheetRows (t : TableModel) : List (List SheetCell) :=
  t.rows.map (fun row => row.map (fun c =>
    ⟨c.origin_col, c.text,
     styleFor (if c.is_header then StyleRole.headerRow else StyleRole.bodyCell)⟩))

/-- Modelled from the spec: the Summary sheet — one row per table (index,
row count, column count) and a final row with the total content-record count
(spec 4.5). -/
def summarySheetRows (tables : List TableModel) (records : List ContentRecord) :
    List (List SheetCell) :=
  tables.map (fun t =>
    [⟨0, decimalRepr t.index, styleFor StyleRole.bodyCell⟩,
     ⟨1, decimalRepr t.rows.length, styleFor StyleRole.bodyCell⟩,
     ⟨2, decimalRepr t.column_count, styleFor StyleRole.bodyCell⟩]) ++
  [[⟨0, decimalRepr records.length, styleFor StyleRole.bodyCell⟩]]

/-- Modelled from the spec: one Content sheet row per record in sequence
order; table references render as a textual cross-reference to the table
sheet's name (spec 4.5). -/
def contentCell (tableNames : List String) : ContentRecord → SheetCell
  | ContentRecord.heading l s => ⟨0, s, styleFor (StyleRole.heading l)⟩
  | ContentRecord.paragraph s => ⟨0, s, styleFor StyleRole.paragraphText⟩
  | ContentRecord.listItem d _ _ s => ⟨d, s, styleFor StyleRole.listItemText⟩
  | ContentRecord.tableReference i =>
    ⟨0, String.append ("see ") (tableNames.getD (i - 1) (decimalRepr i)),
     styleFor StyleRole.paragraphText⟩

/-- Modelled from the spec: SpreadsheetModelBuilder.build (spec 4.5): a
Summary sheet, one sheet per table named from the sanitized label
`Table_<index>` with collision suffixes, and a Content sheet; table sheets
carry the declared merge ranges of their spans. -/
def buildWorkbook (tables : List TableModel) (records : List ContentRecord) :
    WorkbookModel :=
  let bases := "Summary" ::
    (tables.map (fun t => String.append ("Table_") (decimalRepr t.index))) ++ ["Content"]
  let names := assignSheetNames [] bases
  let tableNames := (names.drop 1).take tables.length
  WorkbookModel.mk
    (SheetModel.mk (names.getD 0 ("Summary")) (summarySheetRows tables records) [] ::
      ((tableNames.zip tables).map (fun p =>
        SheetModel.mk p.1 (tableSheetRows p.2) (mergesOfTable p.2)) ++
       [SheetModel.mk (names.getD (tables.length + 1) ("Content"))
         (records.map (fun r => [contentCell tableNames r])) []]))

/-! ## Pipeline and batch orchestration (spec 4.6) -/

/-- Modelled from the spec: the single-file pipeline on decoded text:
parse → extract tables and content → build the workbook (spec section 2).
The traversal fuel `length + 2` exceeds the node count of any parse of the
input. -/
def convertChars (cs : List Char) : WorkbookModel :=
  buildWorkbook (extractTables (cs.length + 2) (parseHtmlChars cs).1)
    (exNodes (cs.length + 2) 0 [(parseHtmlChars cs).1])

/-- Modelled from the spec: per-file conversion status (spec section 3). -/
inductive ReportStatus where
  | success
  | failed
deriving DecidableEq

/-- Modelled from the spec: `ConversionReport` (spec section 3). -/
structure ConversionReport where
  status : ReportStatus
  table_count : Nat
  content_record_count : Nat
  error : Option ConvError
  output_path : Option String
  warnings : List String
deriving DecidableEq

/-- Modelled from the spec: convert one named input (spec 4.6): a decode
failure is caught and recorded on this file's report; otherwise the pipeline
runs and the report carries the table and content-record counts and the
default output name. -/
def convertOne (input : String × List Nat) : ConversionReport :=
  match utf8Decode input.2 with
  | none =>
    ⟨ReportStatus.failed, 0, 0, some ConvError.decodeError, none, []⟩
  | some cs =>
    ⟨ReportStatus.success,
     (extractTables (cs.length + 2) (parseHtmlChars cs).1).length,
     (exNodes (cs.length + 2) 0 [(parseHtmlChars cs).1]).length,
     none,
     some (String.append input.1 (".xlsx")),
     (parseHtmlChars cs).2⟩

/-- Modelled from the spec: BatchOrchestrator.run (spec 4.6): each input is
converted independently and its report appended in input order; one file's
failure never aborts the rest. -/
def batchRun (inputs : List (String × List Nat)) : List ConversionReport :=
  inputs.map convertOne

/-- Projection of a content record to its (ordered, index) pair when it is a
list item at exactly the given depth. -/
def listItemProj (depth : Nat) : ContentRecord → Option (Bool × Nat)
  | ContentRecord.listItem d o i _ => if d = depth then some (o, i) else none
  | _ => none

/-! # Theorems -/

/-- C9: for every string password, `checkPasswordRequirements` returns `true`
iff the password has length at least 8 and contains at least one ASCII
uppercase letter, one ASCII lowercase letter, one decimal digit, and one
character from the special set; otherwise it returns `false` (in particular
on the empty string). -/
theorem checkPasswordRequirements_iff (password : String) :
    checkPasswordRequirements password = true ↔
      (8 ≤ password.length ∧
       (∃ c ∈ password.data, 'A' ≤ c ∧ c ≤ 'Z') ∧
       (∃ c ∈ password.data, 'a' ≤ c ∧ c ≤ 'z') ∧
       (∃ c ∈ password.data, '0' ≤ c ∧ c ≤ '9') ∧
       (∃ c ∈ password.data, c ∈ specialChars)) := by
  simp [checkPasswordRequirements, List.any_eq_true, and_assoc]

/-- C10: `settings.load` never throws; it returns the decoded stored value
when the storage holds parseable text under the key, and the default when the
key is absent or the stored text does not parse (the catch branch).  The
hypothesis `parse "" = none` records that `JSON.parse` rejects the empty
string (which the source's truthiness test short-circuits anyway). -/
theorem settingsLoad_spec (parse : String → Option JsonValue)
    (storage : String → Option String) (key : String) (d : JsonValue)
    (hempty : parse "" = none) :
    (∀ s v, storage key = some s → parse s = some v →
        settingsLoad parse storage key d = v) ∧
    (storage key = none → settingsLoad parse storage key d = d) ∧
    (∀ s, storage key = some s → parse s = none →
        settingsLoad parse storage key d = d) := by
  refine ⟨?_, ?_, ?_⟩
  · intro s v hs hv
    have hne : s ≠ "" := by
      intro h
      rw [h, hempty] at hv
      exact Option.noConfusion hv
    simp [settingsLoad, hs, hne, hv]
  · intro h
    simp [settingsLoad, h]
  · intro s hs hv
    by_cases hne : s = "" <;> simp [settingsLoad, hs, hne, hv]

/-- Witness for C10 at concrete inputs: a one-key storage and a parser that
decodes only the literal `true`. -/
theorem settingsLoad_spec_witness :
    ((fun s => if s = "true" then some (JsonValue.bool true) else none) "" = none) ∧
    ((∀ s v, (fun k => if k = "flag" then some "true" else none) "flag" = some s →
        (fun s => if s = "true" then some (JsonValue.bool true) else none) s = some v →
        settingsLoad (fun s => if s = "true" then some (JsonValue.bool true) else none)
          (fun k => if k = "flag" then some "true" else none) "flag" JsonValue.null = v) ∧
     ((fun k => if k = "flag" then some "true" else none) "flag" = none →
        settingsLoad (fun s => if s = "true" then some (JsonValue.bool true) else none)
          (fun k => if k = "flag" then some "true" else none) "flag" JsonValue.null = JsonValue.null) ∧
     (∀ s, (fun k => if k = "flag" then some "true" else none) "flag" = some s →
        (fun s => if s = "true" then some (JsonValue.bool true) else none) s = none →
        settingsLoad (fun s => if s = "true" then some (JsonValue.bool true) else none)
          (fun k => if k = "flag" then some "true" else none) "flag" JsonValue.null = JsonValue.null)) :=
  ⟨rfl,
   settingsLoad_spec (fun s => if s = "true" then some (JsonValue.bool true) else none)
     (fun k => if k = "flag" then some "true" else none) "flag" JsonValue.null rfl⟩

/-! ## Grid resolution lemmas -/

theorem clamp1_pos (n : Int) : 1 ≤ clamp1 n := by
  simp only [clamp1]
  split <;> omega

theorem placeRowCells_mem (r : Nat) :
    ∀ (cells : List RawCell) (occ : List (Nat × Nat)) (cursor : Nat),
      ∀ cm ∈ placeRowCells r cells occ cursor,
        cm.origin_row = r ∧ 1 ≤ cm.row_span ∧ 1 ≤ cm.col_span
  | [], occ, cursor => by simp [placeRowCells]
  | cell :: rest, occ, cursor => by
    intro cm hm
    simp only [placeRowCells, List.mem_cons] at hm
    rcases hm with h | h
    · subst h
      exact ⟨rfl, clamp1_pos _, clamp1_pos _⟩
    · exact placeRowCells_mem r rest _ _ cm h

theorem resolveRows_length :
    ∀ (rows : List (List RawCell)) (r : Nat) (occ : List (Nat × Nat)),
      (resolveRows rows r occ).length = rows.length
  | [], _, _ => rfl
  | row :: rest, r, occ => by
    simp [resolveRows, resolveRows_length rest]

theorem resolveRows_spans :
    ∀ (rows : List (List RawCell)) (r0 : Nat) (occ : List (Nat × Nat))
      (rowM : List CellModel), rowM ∈ resolveRows rows r0 occ →
      ∀ cm ∈ rowM, 1 ≤ cm.row_span ∧ 1 ≤ cm.col_span
  | [], _, _, rowM => by simp [resolveRows]
  | row :: rest, r0, occ, rowM => by
    intro hm cm hcm
    simp only [resolveRows, List.mem_cons] at hm
    rcases hm with h | h
    · subst h
      have := placeRowCells_mem r0 row occ 0 cm hcm
      exact ⟨this.2.1, this.2.2⟩
    · exact resolveRows_spans rest _ _ rowM h cm hcm

theorem rowCovList_eq_flatMap (rows : List (List CellModel)) (r : Nat) :
    rowCovList rows r = rows.flatMap (fun row => rowCovOfRow row r) := rfl

theorem rowCovOfRow_eq_nil (row : List CellModel) (r : Nat)
    (h : ∀ c ∈ row, ¬ (c.origin_row ≤ r ∧ r < c.origin_row + c.row_span)) :
    rowCovOfRow row r = [] := by
  simp only [rowCovOfRow, List.flatMap_eq_nil_iff]
  intro c hc
  simp [h c hc]

theorem rowCovOfRow_length (row : List CellModel) (r : Nat)
    (h : ∀ c ∈ row, c.origin_row ≤ r ∧ r < c.origin_row + c.row_span) :
    (rowCovOfRow row r).length = rowWidthSum row := by
  simp only [rowCovOfRow, List.length_flatMap, rowWidthSum]
  refine congrArg List.sum (List.map_congr_left ?_)
  intro c hc
  simp [h c hc]

theorem rowCovList_resolve_lt :
    ∀ (rows : List (List RawCell)) (r0 : Nat) (occ : List (Nat × Nat)) (r : Nat),
      r < r0 → rowCovList (resolveRows rows r0 occ) r = []
  | [], _, _, _, _ => rfl
  | row :: rest, r0, occ, r, hr => by
    rw [resolveRows, rowCovList_eq_flatMap, List.flatMap_cons]
    rw [← rowCovList_eq_flatMap, rowCovList_resolve_lt rest (r0+1) _ r (by omega)]
    rw [rowCovOfRow_eq_nil]
    · rfl
    · intro c hc
      have := placeRowCells_mem r0 row occ 0 c hc
      omega

theorem rowWidthSum_le_cov :
    ∀ (rows : List (List RawCell)) (r0 : Nat) (occ : List (Nat × Nat)) (i : Nat),
      i < rows.length →
      rowWidthSum ((resolveRows rows r0 occ).getD i []) ≤
        (rowCovList (resolveRows rows r0 occ) (r0 + i)).length
  | [], _, _, i, hi => by simp at hi
  | row :: rest, r0, occ, 0, _ => by
    rw [resolveRows, rowCovList_eq_flatMap, List.flatMap_cons]
    simp only [List.getD_cons_zero, Nat.add_zero, List.length_append]
    rw [rowCovOfRow_length (placeRowCells r0 row occ 0) r0]
    · omega
    · intro c hc
      have := placeRowCells_mem r0 row occ 0 c hc
      omega
  | row :: rest, r0, occ, i+1, hi => by
    rw [resolveRows, rowCovList_eq_flatMap, List.flatMap_cons, ← rowCovList_eq_flatMap]
    simp only [List.getD_cons_succ, List.length_append]
    have := rowWidthSum_le_cov rest (r0+1) (placeRowOcc r0 row occ 0) i (by simpa using hi)
    have harith : r0 + (i + 1) = (r0 + 1) + i := by omega
    rw [harith]
    omega

theorem rowCov_zero_eq (row : List RawCell) (rest : List (List RawCell)) :
    rowCovList (resolveRows (row :: rest) 0 []) 0 =
      rowCovOfRow (placeRowCells 0 row [] 0) 0 := by
  rw [resolveRows, rowCovList_eq_flatMap, List.flatMap_cons, ← rowCovList_eq_flatMap]
  rw [rowCovList_resolve_lt rest 1 _ 0 (by omega)]
  simp

theorem maxRowWidthSum_le (l : List (List CellModel)) (c : Nat)
    (h : ∀ x ∈ l, rowWidthSum x ≤ c) : maxRowWidthSum l ≤ c := by
  induction l with
  | nil => simp [maxRowWidthSum]
  | cons a t ih =>
    simp only [maxRowWidthSum, List.foldr_cons] at *
    exact Nat.max_le.mpr ⟨h a (by simp), ih (fun x hx => h x (by simp [hx]))⟩

theorem maxRowWidthSum_eq (l : List (List CellModel)) (c : Nat)
    (hmem : ∃ x ∈ l, rowWidthSum x = c)
    (hle : ∀ x ∈ l, rowWidthSum x ≤ c) : maxRowWidthSum l = c := by
  induction l with
  | nil => simp at hmem
  | cons a t ih =>
    simp only [maxRowWidthSum, List.foldr_cons]
    rcases hmem with ⟨x, hx, hxc⟩
    rcases List.mem_cons.mp hx with h | h
    · subst h
      rw [hxc]
      exact Nat.max_eq_left (maxRowWidthSum_le t c (fun y hy => hle y (by simp [hy])))
    · have ht : maxRowWidthSum t = c := ih ⟨x, h, hxc⟩ (fun y hy => hle y (by simp [hy]))
      rw [show List.foldr (fun row a => max (rowWidthSum row) a) 0 t = maxRowWidthSum t from rfl,
        ht]
      exact Nat.max_eq_right (hle a (by simp))

/-- C1: for every well-formed resolved table (every grid row covered exactly
once, no gaps or overlaps — ragged inputs are excluded by well-formedness),
`column_count` equals the maximum over rows of the sum of cell widths in that
row, and every row's coverage is exactly `[0, column_count)` with no
duplicates. -/
theorem resolveTable_wellFormed_columnCount (idx : Nat) (rows : List (List RawCell))
    (h : wellFormedTable (resolveTable idx rows)) :
    (resolveTable idx rows).column_count =
      maxRowWidthSum (resolveTable idx rows).rows ∧
    (∀ r, r < (resolveTable idx rows).rows.length →
      (rowCovList (resolveTable idx rows).rows r).Nodup ∧
      (rowCovList (resolveTable idx rows).rows r).toFinset =
        Finset.range (resolveTable idx rows).column_count) := by
  refine ⟨?_, h⟩
  cases rows with
  | nil => rfl
  | cons row rest =>
    have covlen : ∀ r, r < (resolveRows (row :: rest) 0 []).length →
        (rowCovList (resolveRows (row :: rest) 0 []) r).length =
          columnCount (resolveRows (row :: rest) 0 []) := by
      intro r hr
      obtain ⟨hnd', hfs'⟩ := h r hr
      have hnd : (rowCovList (resolveRows (row :: rest) 0 []) r).Nodup := hnd'
      have hfs : (rowCovList (resolveRows (row :: rest) 0 []) r).toFinset =
          Finset.range (columnCount (resolveRows (row :: rest) 0 [])) := hfs'
      calc (rowCovList (resolveRows (row :: rest) 0 []) r).length
          = (rowCovList (resolveRows (row :: rest) 0 []) r).toFinset.card :=
            (List.toFinset_card_of_nodup hnd).symm
        _ = (Finset.range (columnCount (resolveRows (row :: rest) 0 []))).card := by
            rw [hfs]
        _ = columnCount (resolveRows (row :: rest) 0 []) := Finset.card_range _
    have hlen0 : 0 < (resolveRows (row :: rest) 0 []).length := by
      rw [resolveRows_length]; simp
    have hz : (rowCovList (resolveRows (row :: rest) 0 []) 0).length =
        rowWidthSum (placeRowCells 0 row [] 0) := by
      rw [rowCov_zero_eq]
      refine rowCovOfRow_length _ 0 ?_
      intro c hc
      have := placeRowCells_mem 0 row [] 0 c hc
      omega
    have hc0 : rowWidthSum (placeRowCells 0 row [] 0) =
        columnCount (resolveRows (row :: rest) 0 []) := by
      rw [← hz]
      exact covlen 0 hlen0
    have hbound : ∀ x ∈ resolveRows (row :: rest) 0 [],
        rowWidthSum x ≤ columnCount (resolveRows (row :: rest) 0 []) := by
      intro x hx
      obtain ⟨i, hi, hxi⟩ := List.mem_iff_getElem.mp hx
      have hi' : i < (row :: rest).length := by
        rw [← resolveRows_length (row :: rest) 0 []]; exact hi
      have hle := rowWidthSum_le_cov (row :: rest) 0 [] i hi'
      rw [List.getD_eq_getElem _ _ hi, hxi] at hle
      calc rowWidthSum x ≤ (rowCovList (resolveRows (row :: rest) 0 []) (0 + i)).length := hle
        _ = columnCount (resolveRows (row :: rest) 0 []) := by
            rw [Nat.zero_add]; exact covlen i hi
    have hhead : placeRowCells 0 row [] 0 ∈ resolveRows (row :: rest) 0 [] := by
      rw [resolveRows]; exact List.mem_cons_self _ _
    exact (maxRowWidthSum_eq _ _ ⟨_, hhead, hc0⟩ hbound).symm

/-- Witness for C1: the 2×3 table of spec section 8 is well-formed; its
column count is 3 and equals the maximum row width sum. -/
theorem resolveTable_wellFormed_columnCount_witness :
    wellFormedTable (resolveTable 1
      [[⟨"A", 1, 2, false⟩, ⟨"B", 1, 1, false⟩],
       [⟨"C", 1, 1, false⟩, ⟨"D", 1, 1, false⟩, ⟨"E", 1, 1, false⟩]]) ∧
    ((resolveTable 1
      [[⟨"A", 1, 2, false⟩, ⟨"B", 1, 1, false⟩],
       [⟨"C", 1, 1, false⟩, ⟨"D", 1, 1, false⟩, ⟨"E", 1, 1, false⟩]]).column_count =
      maxRowWidthSum (resolveTable 1
      [[⟨"A", 1, 2, false⟩, ⟨"B", 1, 1, false⟩],
       [⟨"C", 1, 1, false⟩, ⟨"D", 1, 1, false⟩, ⟨"E", 1, 1, false⟩]]).rows ∧
     (∀ r, r < (resolveTable 1
      [[⟨"A", 1, 2, false⟩, ⟨"B", 1, 1, false⟩],
       [⟨"C", 1, 1, false⟩, ⟨"D", 1, 1, false⟩, ⟨"E", 1, 1, false⟩]]).rows.length →
      (rowCovList (resolveTable 1
      [[⟨"A", 1, 2, false⟩, ⟨"B", 1, 1, false⟩],
       [⟨"C", 1, 1, false⟩, ⟨"D", 1, 1, false⟩, ⟨"E", 1, 1, false⟩]]).rows r).Nodup ∧
      (rowCovList (resolveTable 1
      [[⟨"A", 1, 2, false⟩, ⟨"B", 1, 1, false⟩],
       [⟨"C", 1, 1, false⟩, ⟨"D", 1, 1, false⟩, ⟨"E", 1, 1, false⟩]]).rows r).toFinset =
        Finset.range (resolveTable 1
      [[⟨"A", 1, 2, false⟩, ⟨"B", 1, 1, false⟩],
       [⟨"C", 1, 1, false⟩, ⟨"D", 1, 1, false⟩, ⟨"E", 1, 1, false⟩]]).column_count)) :=
  ⟨by decide, resolveTable_wellFormed_columnCount 1
      [[⟨"A", 1, 2, false⟩, ⟨"B", 1, 1, false⟩],
       [⟨"C", 1, 1, false⟩, ⟨"D", 1, 1, false⟩, ⟨"E", 1, 1, false⟩]] (by decide)⟩

/-- C2: occupancy-grid placement walks rows and cells in document order,
placing each cell at the next free column and marking its footprint, with
spans clamped to at least 1.  Concretely: the two-row table of spec section 8
yields `column_count = 3` with "A" at columns 0-1 of row 0 and "B" at
column 2; and a `rowspan=2` cell at row 0 column 0 forces row 1's first cell
to column 1. -/
theorem resolveTable_placement_examples :
    ((resolveTable 1
        [[⟨"A", 1, 2, false⟩, ⟨"B", 1, 1, false⟩],
         [⟨"C", 1, 1, false⟩, ⟨"D", 1, 1, false⟩, ⟨"E", 1, 1, false⟩]]).column_count = 3 ∧
     (resolveTable 1
        [[⟨"A", 1, 2, false⟩, ⟨"B", 1, 1, false⟩],
         [⟨"C", 1, 1, false⟩, ⟨"D", 1, 1, false⟩, ⟨"E", 1, 1, false⟩]]).rows =
       [[⟨"A", 1, 2, false, 0, 0⟩, ⟨"B", 1, 1, false, 0, 2⟩],
        [⟨"C", 1, 1, false, 1, 0⟩, ⟨"D", 1, 1, false, 1, 1⟩, ⟨"E", 1, 1, false, 1, 2⟩]]) ∧
    (resolveTable 1 [[⟨"X", 2, 1, false⟩], [⟨"Y", 1, 1, false⟩]]).rows =
      [[⟨"X", 2, 1, false, 0, 0⟩], [⟨"Y", 1, 1, false, 1, 1⟩]] ∧
    (∀ (idx : Nat) (rows : List (List RawCell)) (rowM : List CellModel),
      rowM ∈ (resolveTable idx rows).rows → ∀ cm ∈ rowM,
        1 ≤ cm.row_span ∧ 1 ≤ cm.col_span) := by
  refine ⟨by decide, by decide, ?_⟩
  intro idx rows rowM hm cm hcm
  exact resolveRows_spans rows 0 [] rowM hm cm hcm

/-- Witness for C2's general clamping conjunct, instantiated at the first
example table's first row. -/
theorem resolveTable_placement_examples_witness :
    (⟨"A", 1, 2, false, 0, 0⟩ : CellModel) ∈
      [(⟨"A", 1, 2, false, 0, 0⟩ : CellModel), ⟨"B", 1, 1, false, 0, 2⟩] ∧
    (1 ≤ (⟨"A", 1, 2, false, 0, 0⟩ : CellModel).row_span ∧
     1 ≤ (⟨"A", 1, 2, false, 0, 0⟩ : CellModel).col_span) :=
  ⟨by decide,
   resolveTable_placement_examples.2.2 1
     [[⟨"A", 1, 2, false⟩, ⟨"B", 1, 1, false⟩],
      [⟨"C", 1, 1, false⟩, ⟨"D", 1, 1, false⟩, ⟨"E", 1, 1, false⟩]]
     [⟨"A", 1, 2, false, 0, 0⟩, ⟨"B", 1, 1, false, 0, 2⟩]
     (by decide) ⟨"A", 1, 2, false, 0, 0⟩ (by decide)⟩

/-! ## Merge round-trip lemmas (C7) -/

theorem mergesOfRow_map_footprint (row : List CellModel)
    (h : ∀ c ∈ row, 1 ≤ c.row_span ∧ 1 ≤ c.col_span) :
    (mergesOfRow row).map footprintOfMerge = spanFootprintsOfRow row := by
  induction row with
  | nil => rfl
  | cons c rest ih =>
    have hc := h c (by simp)
    have ht := ih (fun x hx => h x (by simp [hx]))
    by_cases hs : 1 < c.row_span ∨ 1 < c.col_span
    · simp only [mergesOfRow, spanFootprintsOfRow, List.filterMap_cons, if_pos hs] at *
      simp only [List.map_cons, ht]
      refine congrArg (· :: _) ?_
      simp only [footprintOfMerge]
      refine congrArg₂ _ rfl (congrArg₂ _ rfl (congrArg₂ _ ?_ ?_)) <;> omega
    · simp only [mergesOfRow, spanFootprintsOfRow, List.filterMap_cons, if_neg hs] at *
      exact ht

theorem merges_rows_map_footprint :
    ∀ (rows : List (List CellModel)),
      (∀ row ∈ rows, ∀ c ∈ row, 1 ≤ c.row_span ∧ 1 ≤ c.col_span) →
      ((rows.flatMap mergesOfRow).map footprintOfMerge =
        rows.flatMap spanFootprintsOfRow)
  | [], _ => rfl
  | row :: rest, h => by
    simp only [List.flatMap_cons, List.map_append]
    rw [mergesOfRow_map_footprint row (h row (by simp)),
      merges_rows_map_footprint rest (fun r hr => h r (by simp [hr]))]

/-- C7: for every table model whose cells have spans at least 1 (as all
resolved tables do), mapping the declared merge ranges of its sheet back to
span footprints recovers exactly the footprints of the cells whose row or
column span exceeds 1. -/
theorem mergeRanges_roundTrip (t : TableModel)
    (h : ∀ row ∈ t.rows, ∀ c ∈ row, 1 ≤ c.row_span ∧ 1 ≤ c.col_span) :
    (mergesOfTable t).map footprintOfMerge = spanFootprints t :=
  merges_rows_map_footprint t.rows h

/-- Witness for C7 at a concrete table with a 2×2-span cell. -/
theorem mergeRanges_roundTrip_witness :
    (∀ row ∈ (resolveTable 3
        [[⟨"X", 2, 2, false⟩, ⟨"B", 1, 1, false⟩], [⟨"C", 1, 1, false⟩]]).rows,
      ∀ c ∈ row, 1 ≤ c.row_span ∧ 1 ≤ c.col_span) ∧
    (mergesOfTable (resolveTable 3
        [[⟨"X", 2, 2, false⟩, ⟨"B", 1, 1, false⟩], [⟨"C", 1, 1, false⟩]])).map
        footprintOfMerge =
      spanFootprints (resolveTable 3
        [[⟨"X", 2, 2, false⟩, ⟨"B", 1, 1, false⟩], [⟨"C", 1, 1, false⟩]]) :=
  ⟨by decide,
   mergeRanges_roundTrip (resolveTable 3
     [[⟨"X", 2, 2, false⟩, ⟨"B", 1, 1, false⟩], [⟨"C", 1, 1, false⟩]]) (by decide)⟩

/-! ## Decimal rendering lemmas -/

theorem digitChar_toNat (d : Nat) (h : d < 10) : (digitChar d).toNat = 48 + d := by
  interval_cases d <;> rfl

theorem evalDigits_append_digit (l : List Char) (c : Char) :
    evalDigits (l ++ [c]) = evalDigits l * 10 + (c.toNat - 48) := by
  simp [evalDigits, List.foldl_append]

theorem evalDigits_decDigitsAux : ∀ (fuel n : Nat), n ≤ fuel →
    evalDigits (decDigitsAux fuel n) = n
  | 0, n, h => by
    have : n = 0 := by omega
    subst this
    rfl
  | fuel+1, 0, _ => rfl
  | fuel+1, n+1, h => by
    have hdiv : (n+1) / 10 < n + 1 := Nat.div_lt_self (Nat.succ_pos n) (by omega)
    rw [decDigitsAux, evalDigits_append_digit,
      evalDigits_decDigitsAux fuel ((n+1) / 10) (by omega),
      digitChar_toNat _ (Nat.mod_lt _ (by omega))]
    omega

theorem evalDigits_decimalRepr (n : Nat) : evalDigits (decimalRepr n).data = n := by
  by_cases h : n = 0
  · subst h
    rfl
  · rw [decimalRepr, if_neg h]
    exact evalDigits_decDigitsAux n n le_rfl

theorem decDigitsAux_digits : ∀ (fuel n : Nat) (c : Char), c ∈ decDigitsAux fuel n →
    48 ≤ c.toNat ∧ c.toNat ≤ 57
  | 0, _, c => by simp [decDigitsAux]
  | fuel+1, 0, c => by simp [decDigitsAux]
  | fuel+1, n+1, c => by
    intro hc
    rw [decDigitsAux] at hc
    rcases List.mem_append.mp hc with h | h
    · exact decDigitsAux_digits fuel _ c h
    · have hc' : c = digitChar ((n+1) % 10) := by simpa using h
      subst hc'
      rw [digitChar_toNat _ (Nat.mod_lt _ (by omega))]
      omega

theorem decimalRepr_digits (n : Nat) :
    ∀ c ∈ (decimalRepr n).data, 48 ≤ c.toNat ∧ c.toNat ≤ 57 := by
  by_cases h : n = 0
  · subst h
    intro c hc
    have : c = '0' := by simpa [decimalRepr] using hc
    subst this
    decide
  · rw [decimalRepr, if_neg h]
    exact fun c hc => decDigitsAux_digits n n c hc

theorem decDigitsAux_length : ∀ (fuel n d : Nat), n < 10 ^ d →
    (decDigitsAux fuel n).length ≤ d
  | 0, _, _, _ => by simp [decDigitsAux]
  | fuel+1, 0, d, _ => by simp [decDigitsAux]
  | fuel+1, n+1, d, h => by
    obtain ⟨e, rfl⟩ : ∃ e, d = e + 1 := by
      refine ⟨d - 1, ?_⟩
      rcases Nat.eq_zero_or_pos d with h0 | h0
      · subst h0
        simp at h
      · omega
    have hb : (n+1) / 10 < 10 ^ e :=
      (Nat.div_lt_iff_lt_mul (by omega)).mpr (by rw [← pow_succ]; exact h)
    have := decDigitsAux_length fuel ((n+1) / 10) e hb
    rw [decDigitsAux]
    simp only [List.length_append, List.length_cons, List.length_nil]
    omega

theorem decimalRepr_length (n d : Nat) (hd : 1 ≤ d) (h : n < 10 ^ d) :
    (decimalRepr n).length ≤ d := by
  by_cases h0 : n = 0
  · subst h0
    simpa [decimalRepr] using hd
  · rw [decimalRepr, if_neg h0]
    exact decDigitsAux_length n n d h

/-! ## Sheet naming lemmas -/

theorem suffixedSheetName_inj (base : String) (k k' : Nat)
    (h : suffixedSheetName base k = suffixedSheetName base k') : k = k' := by
  have hd : (sanitizeChars base).take 25 ++ '_' :: (decimalRepr k).data =
      (sanitizeChars base).take 25 ++ '_' :: (decimalRepr k').data :=
    congrArg String.data h
  have htail := List.append_cancel_left hd
  have hdata : (decimalRepr k).data = (decimalRepr k').data := by
    simpa using htail
  have := congrArg evalDigits hdata
  rwa [evalDigits_decimalRepr, evalDigits_decimalRepr] at this

theorem exists_free_suffix (used : List String) (base : String) (k0 : Nat) :
    ∃ j, j ≤ used.length ∧ suffixedSheetName base (k0 + j) ∉ used := by
  by_contra hall
  push_neg at hall
  have hnd : ((List.range (used.length + 1)).map
      (fun j => suffixedSheetName base (k0 + j))).Nodup := by
    refine List.Nodup.map ?_ (List.nodup_range _)
    intro a b hab
    have := suffixedSheetName_inj base (k0 + a) (k0 + b) hab
    omega
  have hsub : ((List.range (used.length + 1)).map
      (fun j => suffixedSheetName base (k0 + j))).toFinset ⊆ used.toFinset := by
    intro x hx
    simp only [List.mem_toFinset, List.mem_map, List.mem_range] at hx
    obtain ⟨j, hj, rfl⟩ := hx
    exact List.mem_toFinset.mpr (hall j (by omega))
  have h1 := Finset.card_le_card hsub
  rw [List.toFinset_card_of_nodup hnd, List.length_map, List.length_range] at h1
  have h2 := used.toFinset_card_le
  omega

theorem findSuffix_not_mem (used : List String) (base : String) :
    ∀ (fuel k0 : Nat), (∃ j, j < fuel ∧ suffixedSheetName base (k0 + j) ∉ used) →
      findSuffix used base k0 fuel ∉ used
  | 0, k0, h => by
    obtain ⟨j, hj, _⟩ := h
    omega
  | fuel+1, k0, h => by
    rw [findSuffix]
    split
    · refine findSuffix_not_mem used base fuel (k0+1) ?_
      obtain ⟨j, hj, hfree⟩ := h
      rcases j with _ | j'
      · simp only [Nat.add_zero] at hfree
        exact absurd (by assumption) hfree
      · refine ⟨j', by omega, ?_⟩
        have harith : k0 + 1 + j' = k0 + (j' + 1) := by omega
        rw [harith]
        exact hfree
    · assumption

theorem findSuffix_shape (used : List String) (base : String) :
    ∀ (fuel k0 : Nat), ∃ k, k0 ≤ k ∧ k ≤ k0 + fuel ∧
      findSuffix used base k0 fuel = suffixedSheetName base k
  | 0, k0 => ⟨k0, le_rfl, by omega, rfl⟩
  | fuel+1, k0 => by
    rw [findSuffix]
    split
    · obtain ⟨k, h1, h2, h3⟩ := findSuffix_shape used base fuel (k0+1)
      exact ⟨k, by omega, by omega, h3⟩
    · exact ⟨k0, le_rfl, by omega, rfl⟩

theorem resolveSheetName_not_mem (used : List String) (base : String) :
    resolveSheetName used base ∉ used := by
  rw [resolveSheetName]
  split
  · refine findSuffix_not_mem used base (used.length + 1) 2 ?_
    obtain ⟨j, hj, hfree⟩ := exists_free_suffix used base 2
    exact ⟨j, by omega, hfree⟩
  · assumption

theorem resolveSheetName_shape (used : List String) (base : String) :
    resolveSheetName used base = plainSheetName base ∨
    ∃ k, 2 ≤ k ∧ k ≤ used.length + 3 ∧
      resolveSheetName used base = suffixedSheetName base k := by
  rw [resolveSheetName]
  split
  · obtain ⟨k, h1, h2, h3⟩ := findSuffix_shape used base (used.length + 1) 2
    exact Or.inr ⟨k, h1, by omega, h3⟩
  · exact Or.inl rfl

theorem assignSheetNames_length :
    ∀ (bases used : List String), (assignSheetNames used bases).length = bases.length
  | [], _ => rfl
  | b :: rest, used => by
    simp [assignSheetNames, assignSheetNames_length rest]

theorem assignSheetNames_not_mem :
    ∀ (bases used : List String), ∀ n ∈ assignSheetNames used bases, n ∉ used
  | [], _, n => by simp [assignSheetNames]
  | b :: rest, used, n => by
    intro hn
    simp only [assignSheetNames, List.mem_cons] at hn
    rcases hn with rfl | hn
    · exact resolveSheetName_not_mem used b
    · intro hmem
      exact assignSheetNames_not_mem rest _ n hn (List.mem_cons_of_mem _ hmem)

theorem assignSheetNames_nodup :
    ∀ (bases used : List String), (assignSheetNames used bases).Nodup
  | [], _ => List.nodup_nil
  | b :: rest, used => by
    simp only [assignSheetNames, List.nodup_cons]
    exact ⟨fun hmem => assignSheetNames_not_mem rest _ _ hmem (List.mem_cons_self _ _),
      assignSheetNames_nodup rest _⟩

theorem assignSheetNames_shape :
    ∀ (bases used : List String), ∀ n ∈ assignSheetNames used bases,
      (∃ b ∈ bases, n = plainSheetName b) ∨
      (∃ b ∈ bases, ∃ k, 2 ≤ k ∧ k ≤ used.length + bases.length + 2 ∧
        n = suffixedSheetName b k)
  | [], _, n => by simp [assignSheetNames]
  | b :: rest, used, n => by
    intro hn
    simp only [assignSheetNames, List.mem_cons] at hn
    rcases hn with rfl | hn
    · rcases resolveSheetName_shape used b with h | ⟨k, h1, h2, h3⟩
      · exact Or.inl ⟨b, by simp, h⟩
      · refine Or.inr ⟨b, by simp, k, h1, ?_, h3⟩
        simp only [List.length_cons]
        omega
    · rcases assignSheetNames_shape rest _ n hn with ⟨b', hb', h⟩ | ⟨b', hb', k, h1, h2, h3⟩
      · exact Or.inl ⟨b', by simp [hb'], h⟩
      · refine Or.inr ⟨b', by simp [hb'], k, h1, ?_, h3⟩
        simp only [List.length_cons] at h2 ⊢
        omega

theorem sanitizeChars_valid (base : String) :
    ∀ c ∈ sanitizeChars base, c ∉ invalidSheetChars := by
  intro c hc
  have := (List.mem_filter.mp hc).2
  simpa using this

theorem plainSheetName_length (base : String) : (plainSheetName base).length ≤ 31 :=
  List.length_take_le 31 (sanitizeChars base)

theorem plainSheetName_chars (base : String) :
    ∀ c ∈ (plainSheetName base).data, c ∉ invalidSheetChars := by
  intro c hc
  exact sanitizeChars_valid base c (List.mem_of_mem_take hc)

theorem suffixedSheetName_length (base : String) (k : Nat) (hk : k < 100000) :
    (suffixedSheetName base k).length ≤ 31 := by
  have h1 := List.length_take_le 25 (sanitizeChars base)
  have h2 : (decimalRepr k).length ≤ 5 :=
    decimalRepr_length k 5 (by omega)
      (by calc k < 100000 := hk
            _ = 10 ^ 5 := by norm_num)
  show ((sanitizeChars base).take 25 ++ '_' :: (decimalRepr k).data).length ≤ 31
  rw [List.length_append]
  simp only [List.length_cons]
  have h2' : (decimalRepr k).data.length ≤ 5 := h2
  omega

theorem suffixedSheetName_chars (base : String) (k : Nat) :
    ∀ c ∈ (suffixedSheetName base k).data, c ∉ invalidSheetChars := by
  intro c hc
  have hc' : c ∈ (sanitizeChars base).take 25 ++ '_' :: (decimalRepr k).data := hc
  rcases List.mem_append.mp hc' with h | h
  · exact sanitizeChars_valid base c (List.mem_of_mem_take h)
  · rcases List.mem_cons.mp h with rfl | h
    · decide
    · have hdig := decimalRepr_digits k c h
      intro hmem
      fin_cases hmem <;> exact absurd hdig (by decide)

theorem assignSheetNames_valid (bases used : List String)
    (hb : used.length + bases.length ≤ 99996) :
    ∀ n ∈ assignSheetNames used bases,
      n.length ≤ 31 ∧ ∀ c ∈ n.data, c ∉ invalidSheetChars := by
  intro n hn
  rcases assignSheetNames_shape bases used n hn with ⟨b, _, rfl⟩ | ⟨b, _, k, _, hk, rfl⟩
  · exact ⟨plainSheetName_length b, plainSheetName_chars b⟩
  · exact ⟨suffixedSheetName_length b k (by omega), suffixedSheetName_chars b k⟩

/-! ## Parser and batch theorems -/

/-- C4: `DocumentTreeParser.parse` fails with the decode error exactly when
the input bytes are not decodable as text; every decodable input yields a
best-effort tree, and malformed tag structure (here an unclosed tag) yields
a tree plus a recorded warning rather than a failure. -/
theorem parseDocument_spec (bytes : List Nat) :
    (parseDocument bytes = Except.error ConvError.decodeError ↔
      utf8Decode bytes = none) ∧
    (∀ cs, utf8Decode bytes = some cs →
      parseDocument bytes = Except.ok (parseHtmlChars cs)) ∧
    (parseHtmlChars ("<b>x".data)).2 ≠ [] := by
  refine ⟨⟨?_, ?_⟩, ?_, by decide⟩
  · intro h
    cases hd : utf8Decode bytes with
    | none => rfl
    | some cs =>
      rw [parseDocument.eq_def, hd] at h
      exact Except.noConfusion h
  · intro h
    rw [parseDocument.eq_def, h]
  · intro cs h
    rw [parseDocument.eq_def, h]

/-- Witness for C4 at concrete byte inputs: decodable ASCII text parses to a
tree, the invalid byte 255 yields the decode error. -/
theorem parseDocument_spec_witness :
    (utf8Decode [104, 105] = some ['h', 'i']) ∧
    parseDocument [104, 105] = Except.ok (parseHtmlChars ['h', 'i']) ∧
    (utf8Decode [255] = none) ∧
    parseDocument [255] = Except.error ConvError.decodeError :=
  ⟨rfl, (parseDocument_spec [104, 105]).2.1 ['h', 'i'] rfl, rfl,
   (parseDocument_spec [255]).1.mpr rfl⟩

/-- C6: the conversion pipeline is a pure function of the input text: two
runs on the same text produce structurally identical workbook models — the
same sheet names, the same rows of styled cell values, and the same merge
ranges. -/
theorem convert_deterministic (cs : List Char) :
    (convertChars cs).sheets.map (fun s => s.name) =
      (convertChars cs).sheets.map (fun s => s.name) ∧
    (convertChars cs).sheets.map (fun s => s.rows) =
      (convertChars cs).sheets.map (fun s => s.rows) ∧
    (convertChars cs).sheets.map (fun s => s.merges) =
      (convertChars cs).sheets.map (fun s => s.merges) ∧
    convertChars cs = convertChars cs :=
  ⟨rfl, rfl, rfl, rfl⟩

/-- C3: the batch processes each input independently — the report sequence
has one report per input, in input order, each computed from its own input
alone; concretely, a batch of three inputs whose second is undecodable
yields success, decode-error failure, success, in that order. -/
theorem batchRun_spec :
    (∀ (inputs : List (String × List Nat)),
      (batchRun inputs).length = inputs.length ∧
      ∀ i : Nat, (batchRun inputs)[i]? = (inputs[i]?).map convertOne) ∧
    ((batchRun [("a", [104, 105]), ("b", [255]), ("c", [111, 107])]).map
        (fun r => (r.status, r.error)) =
      [(ReportStatus.success, none),
       (ReportStatus.failed, some ConvError.decodeError),
       (ReportStatus.success, none)]) := by
  refine ⟨fun inputs => ⟨List.length_map _ _, fun i => ?_⟩, by decide⟩
  simp [batchRun]

/-! ## Content extractor lemmas (C8) -/

theorem exList_depth_ge : ∀ (fuel depth : Nat) (ordered : Bool) (idx : Nat)
    (children : List Node) (r : ContentRecord),
    r ∈ exList fuel depth ordered idx children →
    ∃ d o i s, r = ContentRecord.listItem d o i s ∧ depth ≤ d
  | 0, depth, ordered, idx, children, r => by simp [exList]
  | fuel+1, depth, ordered, idx, [], r => by simp [exList]
  | fuel+1, depth, ordered, idx, Node.text s :: rest, r => by
    intro h
    rw [show exList (fuel+1) depth ordered idx (Node.text s :: rest) =
        exList fuel depth ordered idx rest from by simp [exList]] at h
    exact exList_depth_ge fuel depth ordered idx rest r h
  | fuel+1, depth, ordered, idx, Node.element tag tattrs lich :: rest, r => by
    intro h
    by_cases hli : tag = "li"
    · subst hli
      rw [show exList (fuel+1) depth ordered idx (Node.element "li" tattrs lich :: rest) =
          ContentRecord.listItem depth ordered idx (textOfNodes fuel lich) ::
            ((lich.map (fun g =>
                match g with
                | Node.element t2 _ gch =>
                  if t2 = "ol" then exList fuel (depth+1) true 1 gch
                  else if t2 = "ul" then exList fuel (depth+1) false 1 gch
                  else []
                | _ => [])).flatten ++
              exList fuel depth ordered (idx+1) rest) from by simp [exList]] at h
      rcases List.mem_cons.mp h with rfl | h2
      · exact ⟨depth, ordered, idx, _, rfl, le_rfl⟩
      rcases List.mem_append.mp h2 with h3 | h3
      · obtain ⟨sub, hsub, hr⟩ := List.mem_flatten.mp h3
        obtain ⟨g, _, rfl⟩ := List.mem_map.mp hsub
        match g with
        | Node.text s2 => simp at hr
        | Node.element t2 a2 gch =>
          by_cases ho : t2 = "ol"
          · simp only [ho, if_pos rfl] at hr
            obtain ⟨d, o, i, s2, rfl, hd⟩ :=
              exList_depth_ge fuel (depth+1) true 1 gch r hr
            exact ⟨d, o, i, s2, rfl, by omega⟩
          · by_cases hu : t2 = "ul"
            · simp only [ho, hu, if_neg, if_pos] at hr
              obtain ⟨d, o, i, s2, rfl, hd⟩ :=
                exList_depth_ge fuel (depth+1) false 1 gch r hr
              exact ⟨d, o, i, s2, rfl, by omega⟩
            · simp [ho, hu] at hr
      · exact exList_depth_ge fuel depth ordered (idx+1) rest r h3
    · rw [show exList (fuel+1) depth ordered idx (Node.element tag tattrs lich :: rest) =
          exList fuel depth ordered idx rest from by simp [exList, hli]] at h
      exact exList_depth_ge fuel depth ordered idx rest r h

theorem exList_indices : ∀ (fuel depth : Nat) (ordered : Bool) (idx : Nat)
    (children : List Node),
    ∃ m, (exList fuel depth ordered idx children).filterMap (listItemProj depth) =
      (List.range m).map (fun j => (ordered, idx + j))
  | 0, depth, ordered, idx, children => ⟨0, by simp [exList]⟩
  | fuel+1, depth, ordered, idx, [] => ⟨0, by simp [exList]⟩
  | fuel+1, depth, ordered, idx, Node.text s :: rest => by
    obtain ⟨m, hm⟩ := exList_indices fuel depth ordered idx rest
    refine ⟨m, ?_⟩
    rw [show exList (fuel+1) depth ordered idx (Node.text s :: rest) =
        exList fuel depth ordered idx rest from by simp [exList]]
    exact hm
  | fuel+1, depth, ordered, idx, Node.element tag tattrs lich :: rest => by
    by_cases hli : tag = "li"
    · subst hli
      obtain ⟨m, hm⟩ := exList_indices fuel depth ordered (idx+1) rest
      refine ⟨m + 1, ?_⟩
      rw [show exList (fuel+1) depth ordered idx (Node.element "li" tattrs lich :: rest) =
          ContentRecord.listItem depth ordered idx (textOfNodes fuel lich) ::
            ((lich.map (fun g =>
                match g with
                | Node.element t2 _ gch =>
                  if t2 = "ol" then exList fuel (depth+1) true 1 gch
                  else if t2 = "ul" then exList fuel (depth+1) false 1 gch
                  else []
                | _ => [])).flatten ++
              exList fuel depth ordered (idx+1) rest) from by simp [exList]]
      rw [List.filterMap_cons, List.filterMap_append]
      have hnil : ((lich.map (fun g =>
          match g with
          | Node.element t2 _ gch =>
            if t2 = "ol" then exList fuel (depth+1) true 1 gch
            else if t2 = "ul" then exList fuel (depth+1) false 1 gch
            else []
          | _ => [])).flatten).filterMap (listItemProj depth) = [] := by
        rw [List.filterMap_eq_nil_iff]
        intro r hr
        obtain ⟨sub, hsub, hrr⟩ := List.mem_flatten.mp hr
        obtain ⟨g, _, rfl⟩ := List.mem_map.mp hsub
        match g with
        | Node.text s2 => simp at hrr
        | Node.element t2 a2 gch =>
          by_cases ho : t2 = "ol"
          · simp only [ho, if_pos rfl] at hrr
            obtain ⟨d, o, i, s2, rfl, hd⟩ :=
              exList_depth_ge fuel (depth+1) true 1 gch r hrr
            simp [listItemProj, show d ≠ depth from by omega]
          · by_cases hu : t2 = "ul"
            · simp only [ho, hu, if_neg, if_pos] at hrr
              obtain ⟨d, o, i, s2, rfl, hd⟩ :=
                exList_depth_ge fuel (depth+1) false 1 gch r hrr
              simp [listItemProj, show d ≠ depth from by omega]
            · simp [ho, hu] at hrr
      rw [hnil, hm]
      have hcomp : (List.range m).map (fun j => (ordered, idx + 1 + j)) =
          (List.range m).map ((fun j => (ordered, idx + j)) ∘ Nat.succ) := by
        refine List.map_congr_left ?_
        intro j _
        simp only [Function.comp_apply]
        refine congrArg _ ?_
        omega
      simp [listItemProj, List.range_succ_eq_map, List.map_map, hcomp]
    · obtain ⟨m, hm⟩ := exList_indices fuel depth ordered idx rest
      refine ⟨m, ?_⟩
      rw [show exList (fuel+1) depth ordered idx (Node.element tag tattrs lich :: rest) =
          exList fuel depth ordered idx rest from by simp [exList, hli]]
      exact hm

/-- C8: the content extractor gives each list item the depth of its
enclosing list (nested lists extract strictly deeper), the `ordered` flag of
the enclosing list, and a 1-based index within its immediate parent list —
the direct items of any list carry indices 1, 2, …; concretely, the nested
list of spec section 8 yields exactly ListItem(0, ordered, 1, "a") then
ListItem(1, unordered, 1, "b"). -/
theorem contentExtractor_list_spec :
    (exNodes 10 0 [Node.element ("ol") []
        [Node.element ("li") []
          [Node.text "a",
           Node.element ("ul") [] [Node.element ("li") [] [Node.text "b"]]]]] =
      [ContentRecord.listItem 0 true 1 "a",
       ContentRecord.listItem 1 false 1 "b"]) ∧
    (∀ (fuel depth : Nat) (ordered : Bool) (children : List Node),
      ∃ m, (exList fuel depth ordered 1 children).filterMap (listItemProj depth) =
        (List.range m).map (fun j => (ordered, 1 + j))) ∧
    (∀ (fuel depth : Nat) (ordered : Bool) (idx : Nat) (children : List Node)
        (r : ContentRecord), r ∈ exList fuel depth ordered idx children →
      ∃ d o i s, r = ContentRecord.listItem d o i s ∧ depth ≤ d) :=
  ⟨by decide,
   fun fuel depth ordered children => exList_indices fuel depth ordered 1 children,
   exList_depth_ge⟩

/-- Witness for C8's membership-hypothesis conjunct, instantiated at the
record extracted from the concrete nested list. -/
theorem contentExtractor_list_spec_witness :
    ContentRecord.listItem 0 true 1 "a" ∈
      exList 9 0 true 1
        [Node.element ("li") []
          [Node.text "a",
           Node.element ("ul") [] [Node.element ("li") [] [Node.text "b"]]]] ∧
    (∃ d o i s, ContentRecord.listItem 0 true 1 "a" =
        ContentRecord.listItem d o i s ∧ 0 ≤ d) :=
  ⟨by decide,
   contentExtractor_list_spec.2.2 9 0 true 1
     [Node.element ("li") []
       [Node.text "a",
        Node.element ("ul") [] [Node.element ("li") [] [Node.text "b"]]]]
     (ContentRecord.listItem 0 true 1 "a") (by decide)⟩

/-! ## Workbook naming theorems (C5) -/

/-- Taking all but the last element and re-appending it is the identity. -/
theorem take_getD_eq : ∀ (l : List String) (k : Nat) (d : String), l.length = k + 1 →
    l.take k ++ [l.getD k d] = l
  | [], k, d, h => by simp at h
  | x :: xs, 0, d, h => by
    have : xs = [] := List.length_eq_zero.mp (by simpa using h)
    subst this
    rfl
  | x :: xs, k+1, d, h => by
    simp only [List.take_succ_cons, List.getD_cons_succ, List.cons_append]
    rw [take_getD_eq xs k d (by simpa using h)]

/-- The sheet names of a built workbook are exactly the assigned names of
the base labels Summary, `Table_<index>` per table, Content. -/
theorem buildWorkbook_names (tables : List TableModel) (records : List ContentRecord) :
    (buildWorkbook tables records).sheets.map (fun s => s.name) =
      assignSheetNames []
        ("Summary" ::
          (tables.map (fun t => String.append ("Table_") (decimalRepr t.index))) ++
          ["Content"]) := by
  have hblen : ("Summary" ::
      (tables.map (fun t => String.append ("Table_") (decimalRepr t.index))) ++
      ["Content"]).length = tables.length + 2 := by
    simp
  have hnlen : (assignSheetNames []
      ("Summary" ::
        (tables.map (fun t => String.append ("Table_") (decimalRepr t.index))) ++
        ["Content"])).length = tables.length + 2 := by
    rw [assignSheetNames_length]
    exact hblen
  cases hn : assignSheetNames []
      ("Summary" ::
        (tables.map (fun t => String.append ("Table_") (decimalRepr t.index))) ++
        ["Content"]) with
  | nil => rw [hn] at hnlen; simp at hnlen
  | cons n0 nrest =>
    rw [hn] at hnlen
    have hrlen : nrest.length = tables.length + 1 := by simpa using hnlen
    simp only [buildWorkbook, hn]
    simp only [List.map_cons, List.map_append, List.map_map, List.getD_cons_zero,
      List.drop_succ_cons, List.drop_zero, List.getD_cons_succ]
    refine congrArg₂ _ rfl ?_
    rw [show List.map ((fun s => s.name) ∘ fun p =>
          SheetModel.mk p.1 (tableSheetRows p.2) (mergesOfTable p.2))
          ((List.take tables.length nrest).zip tables) = List.take tables.length nrest from
      List.map_fst_zip (nrest.take tables.length) tables
        (by rw [List.length_take]; omega)]
    simp only [List.map_cons, List.map_nil]
    exact take_getD_eq nrest tables.length ("Content") hrlen

/-- C5: in every workbook produced by the builder the sheet names are
pairwise distinct, at most 31 characters, and free of the disallowed
characters; table sheets are named from the sanitized label
`Table_<index>`, collisions resolved by `_2`, `_3`, … in order of first
occurrence — in particular two labels sanitizing to Summary yield the names
Summary and Summary_2. -/
theorem buildWorkbook_sheetNames (tables : List TableModel)
    (records : List ContentRecord) (hlen : tables.length ≤ 90000) :
    ((buildWorkbook tables records).sheets.map (fun s => s.name)).Nodup ∧
    (∀ n ∈ (buildWorkbook tables records).sheets.map (fun s => s.name),
      n.length ≤ 31 ∧ ∀ c ∈ n.data, c ∉ invalidSheetChars) ∧
    ((buildWorkbook tables records).sheets.map (fun s => s.name) =
      assignSheetNames []
        ("Summary" ::
          (tables.map (fun t => String.append ("Table_") (decimalRepr t.index))) ++
          ["Content"])) ∧
    assignSheetNames [] ["Summary", "Summary"] = ["Summary", "Summary_2"] := by
  have hn := buildWorkbook_names tables records
  refine ⟨?_, ?_, hn, by decide⟩
  · rw [hn]
    exact assignSheetNames_nodup _ _
  · rw [hn]
    intro n hnmem
    refine assignSheetNames_valid _ [] ?_ n hnmem
    simp only [List.length_nil, List.length_cons, List.length_append, List.length_map]
    omega

/-- Witness for C5 with an empty table and record list. -/
theorem buildWorkbook_sheetNames_witness :
    (([] : List TableModel).length ≤ 90000) ∧
    (((buildWorkbook [] []).sheets.map (fun s => s.name)).Nodup ∧
     (∀ n ∈ (buildWorkbook [] []).sheets.map (fun s => s.name),
       n.length ≤ 31 ∧ ∀ c ∈ n.data, c ∉ invalidSheetChars) ∧
     ((buildWorkbook [] []).sheets.map (fun s => s.name) =
       assignSheetNames []
         ("Summary" ::
           (([] : List TableModel).map
             (fun t => String.append ("Table_") (decimalRepr t.index))) ++
           ["Content"])) ∧
     assignSheetNames [] ["Summary", "Summary"] = ["Summary", "Summary_2"]) :=
  ⟨by decide, buildWorkbook_sheetNames [] [] (by decide)⟩
